import Mathlib

/-!
Verification of the GenericCrudPage component (GenericCrudPage.jsx, styles.js).

The component is a plain event-driven UI widget: its observable behaviour is
given by a handful of pure functions over local state (search string, pending
form values, validation errors) plus caller callbacks.  We embed those
functions shallowly:

* a JS object is an association list with first-match lookup;
* a record value is a string, an integer, or null; an absent property reads
  as `none` (undefined and null are both caught by the `value == null` guard);
* a caller callback is a function returning `CbOutcome`: it either returns
  normally or throws, matching the `try { cb(...) } catch` boundary in the
  handlers; each handler reports the list of arguments the callback was
  invoked with, the number of errors logged by the catch clause, and whether
  an exception escaped the handler.
-/

set_option maxHeartbeats 1000000

/-- JS property read on an object embedded as an association list:
`m[k]` is the first entry with key `k`, `none` when the property is absent. -/
def alistGet {α : Type} (m : List (String × α)) (k : String) : Option α :=
  (m.find? (fun p => p.1 == k)).map (fun p => p.2)

/-- JS `k in m` test: whether the object has the property at all. -/
def hasKey {α : Type} (m : List (String × α)) (k : String) : Bool :=
  m.any (fun p => p.1 == k)

/-- JS property assignment `m[k] = v`: overwrite the entry in place when the
key is present, append it otherwise. -/
def alistSet {α : Type} : List (String × α) → String → α → List (String × α)
  | [], k, v => [(k, v)]
  | p :: rest, k, v => if p.1 == k then (k, v) :: rest else p :: alistSet rest k v

/-- Does the character list start with the given pattern? -/
def startsWithSeq : List Char → List Char → Bool
  | _, [] => true
  | [], _ :: _ => false
  | a :: as, b :: bs => a == b && startsWithSeq as bs

/-- Does the character list contain the pattern as a contiguous subsequence? -/
def containsSeq (pat : List Char) : List Char → Bool
  | [] => decide (pat = [])
  | c :: cs => startsWithSeq (c :: cs) pat || containsSeq pat cs

/-- JS `s.includes(pat)`: substring containment. -/
def jsIncludes (s pat : String) : Bool :=
  containsSeq pat.toList s.toList

/-- JS `s.trim()`: strip leading and trailing whitespace. -/
def jsTrim (s : String) : String :=
  String.mk (((s.data.dropWhile Char.isWhitespace).reverse.dropWhile Char.isWhitespace).reverse)

/-- JS `toLowerCase` on one character, for the ASCII range the data uses. -/
def asciiLower (c : Char) : Char :=
  if 'A' ≤ c && c ≤ 'Z' then Char.ofNat (c.toNat + 32) else c

/-- JS `s.toLowerCase()`, for the ASCII range the data uses. -/
def jsToLower (s : String) : String :=
  String.mk (s.data.map asciiLower)

/-- `pat` occurs in `s` as a contiguous substring (the specification-level
reading of `String.prototype.includes`). -/
def StrContains (s pat : String) : Prop :=
  ∃ pre post : String, s = pre ++ pat ++ post

/-- A record field value: the data rows are caller-supplied JS objects whose
relevant values are strings, numbers or null. -/
inductive Value where
  | str (s : String)
  | num (n : Int)
  | vnull
deriving DecidableEq

/-- JS `value.toString()` for the non-null values the filter reaches (the
source guards `value == null` before calling `toString`). -/
def valueToString : Value → String
  | Value.str s => s
  | Value.num n => toString n
  | Value.vnull => ""

/-- A data record: a JS object, uniquely identified by its id attribute. -/
abbrev Rec : Type := List (String × Value)

/-- Column declaration: `{ key, label, render, sortable }`.  The optional
`render` function only produces display output and takes no part in the
behaviour verified here, so it is not carried in the embedding. -/
structure Column where
  key : String
  label : String
  sortable : Bool := false

/-- Result of a caller validation function: the TS contract is
`(value: any) => true | string`; anything other than `true` is treated as an
error message and used verbatim. -/
inductive ValidationResult where
  | ok
  | err (msg : String)

/-- Form field declaration `{ key, label, type, placeholder, required,
options, validation }` plus the `defaultValue` attribute documented in the
README.  Pending input values are strings (they come from input elements), so
the validation callback receives `Option String`: `none` models an absent
(undefined) pending value. -/
structure FormField where
  key : String
  label : String
  ftype : Option String := none
  placeholder : Option String := none
  required : Bool := false
  options : List (String × String) := []
  validation : Option (Option String → ValidationResult) := none
  defaultValue : Option String := none

/-- Form state: mapping from field key to pending input value. -/
abbrev FormState : Type := List (String × String)

/-- Validation error state: mapping from field key to error message. -/
abbrev ErrMap : Type := List (String × String)

/-- `useState({})`: the pending form state starts as the empty mapping. -/
def initialFormState : FormState := []

/-- Outcome of invoking a caller callback: it returns normally or throws. -/
inductive CbOutcome where
  | ok
  | throws (msg : String)

/-- Observable result of running one of the handlers that invoke a caller
callback: the arguments the callback was invoked with (in order), how many
errors the catch boundary logged via `console.error`, and the exception, if
any, that escaped the handler. -/
structure CallLog (α : Type) where
  calls : List α
  logged : Nat
  propagated : Option String

/-- Does one column match the search term on this record?  Mirrors the body
of the `columns.some` callback: read `item[col.key]`, skip the column when the
value is null or absent, otherwise compare lower-cased text. -/
def columnMatches (search : String) (item : Rec) (col : Column) : Bool :=
  match alistGet item col.key with
  | none => false
  | some Value.vnull => false
  | some v => jsIncludes (jsToLower (valueToString v)) (jsToLower search)

/-- `filteredData`: `if (!search.trim()) return data;` then keep the records
for which some declared column matches. -/
def filteredData (data : List Rec) (columns : List Column) (search : String) : List Rec :=
  if jsTrim search == "" then data
  else data.filter (fun item => columns.any (columnMatches search item))

/-- JS truthiness of the pending value: `!value` is true for undefined and
for the empty string (the only falsy values a text input can produce). -/
def jsFalsyStr : Option String → Bool
  | none => true
  | some s => s == ""

/-- The condition of the required check in `validateField`:
`!value || value.toString().trim() === ''`.  The right disjunct is only
reached for a present string value, where `toString` is the identity. -/
def requiredFails (value : Option String) : Bool :=
  jsFalsyStr value ||
    (match value with
     | none => false
     | some s => jsTrim s == "")

/-- `validateField(field, value)`: required check first, then the optional
caller validation function; `null` (here `none`) means no error. -/
def validateField (field : FormField) (value : Option String) : Option String :=
  if field.required && requiredFails value then
    some (field.label ++ " is required")
  else
    match field.validation with
    | some vf =>
      match vf value with
      | ValidationResult.ok => none
      | ValidationResult.err msg => some msg
    | none => none

/-- One step of the `formFields.forEach` loop in `validateForm`: record the
error under the field key and clear `isValid` when the error is truthy (a
non-null, non-empty string). -/
def validateFormStep (st : FormState) (acc : ErrMap × Bool) (field : FormField) : ErrMap × Bool :=
  match validateField field (alistGet st field.key) with
  | some msg => if msg != "" then (alistSet acc.1 field.key msg, false) else acc
  | none => acc

/-- `validateForm()`: fold the per-field check over the declared fields,
returning the aggregated error object and the `isValid` flag. -/
def validateForm (formFields : List FormField) (st : FormState) : ErrMap × Bool :=
  formFields.foldl (validateFormStep st) ([], true)

/-- Truthiness of a per-field validation result, as tested by `if (error)` in
the `validateForm` loop: a non-null, non-empty error message. -/
def fieldErrs (st : FormState) (f : FormField) : Bool :=
  match validateField f (alistGet st f.key) with
  | some msg => msg != ""
  | none => false

/-- Observable result of `handleAdd`: the callback invocations plus the form
and error state after the handler runs. -/
structure AddResult where
  calls : List FormState
  formState : FormState
  formErrors : ErrMap
  logged : Nat
  propagated : Option String
deriving DecidableEq

/-- `handleAdd()`: abort when validation fails (leaving the errors set by
`validateForm` displayed); otherwise invoke `onAdd` with the pending mapping
inside the try block and reset both states, the catch clause logging any
exception the callback throws (in which case the resets are skipped). -/
def handleAdd (formFields : List FormField) (st : FormState)
    (onAdd : Option (FormState → CbOutcome)) : AddResult :=
  let vr := validateForm formFields st
  if !vr.2 then
    { calls := [], formState := st, formErrors := vr.1, logged := 0, propagated := none }
  else
    match onAdd with
    | none =>
      { calls := [], formState := [], formErrors := [], logged := 0, propagated := none }
    | some f =>
      match f st with
      | CbOutcome.ok =>
        { calls := [st], formState := [], formErrors := [], logged := 0, propagated := none }
      | CbOutcome.throws _ =>
        { calls := [st], formState := st, formErrors := vr.1, logged := 1, propagated := none }

/-- `handleEdit(item)`: invoke `onEdit` with the full record inside the
try/catch boundary. -/
def handleEdit (item : Rec) (onEdit : Option (Rec → CbOutcome)) : CallLog Rec :=
  match onEdit with
  | none => { calls := [], logged := 0, propagated := none }
  | some f =>
    match f item with
    | CbOutcome.ok => { calls := [item], logged := 0, propagated := none }
    | CbOutcome.throws _ => { calls := [item], logged := 1, propagated := none }

/-- `handleDelete(id)`: when `confirmDelete` is set, a confirmation prompt is
shown and a declined response returns early; otherwise `onDelete` is invoked
with the id inside the try/catch boundary.  `winConfirm` is the response
`window.confirm` would give. -/
def handleDelete (confirmDelete : Bool) (winConfirm : Bool) (idv : Value)
    (onDelete : Option (Value → CbOutcome)) : CallLog Value :=
  let confirmMessage : Option String :=
    if confirmDelete then some "Are you sure you want to delete this item?" else none
  if confirmMessage.isSome && !winConfirm then
    { calls := [], logged := 0, propagated := none }
  else
    match onDelete with
    | none => { calls := [], logged := 0, propagated := none }
    | some f =>
      match f idv with
      | CbOutcome.ok => { calls := [idv], logged := 0, propagated := none }
      | CbOutcome.throws _ => { calls := [idv], logged := 1, propagated := none }

/-- The value an input element renders: `formState[field.key] || ''`. -/
def renderedInputValue (st : FormState) (field : FormField) : String :=
  match alistGet st field.key with
  | none => ""
  | some s => if s != "" then s else ""

/-- A style object: CSS property name to CSS value, as written in styles.js. -/
abbrev StyleObj : Type := List (String × String)

/-- JS object spread `{...a, ...b}`: the keys of `b` win over those of `a`. -/
def spreadMerge (a b : StyleObj) : StyleObj :=
  a.filter (fun p => !(hasKey b p.1)) ++ b

/-- The `container` region of `defaultStyles` (styles.js). -/
def containerStyle : StyleObj :=
  [("fontFamily", "-apple-system, BlinkMacSystemFont, \"Segoe UI\", Roboto, sans-serif"),
   ("maxWidth", "1200px"),
   ("margin", "0 auto"),
   ("padding", "20px"),
   ("backgroundColor", "#ffffff"),
   ("borderRadius", "8px"),
   ("boxShadow", "0 2px 10px rgba(0, 0, 0, 0.1)")]

/-- The `header` region of `defaultStyles` (styles.js). -/
def headerStyle : StyleObj :=
  [("display", "flex"),
   ("justifyContent", "space-between"),
   ("alignItems", "center"),
   ("marginBottom", "24px"),
   ("paddingBottom", "16px"),
   ("borderBottom", "1px solid #e1e5e9")]

/-- The `form` region of `defaultStyles` (styles.js). -/
def formStyle : StyleObj :=
  [("display", "grid"),
   ("gridTemplateColumns", "repeat(auto-fit, minmax(200px, 1fr))"),
   ("gap", "16px"),
   ("marginBottom", "24px"),
   ("padding", "20px"),
   ("backgroundColor", "#f8f9fa"),
   ("borderRadius", "8px"),
   ("border", "1px solid #e1e5e9")]

/-- The `formField` region of `defaultStyles` (styles.js). -/
def formFieldStyle : StyleObj :=
  [("display", "flex"),
   ("flexDirection", "column"),
   ("gap", "8px")]

/-- The `addButton` region of `defaultStyles` (styles.js). -/
def addButtonStyle : StyleObj :=
  [("display", "flex"),
   ("alignItems", "center"),
   ("gap", "8px"),
   ("padding", "12px 24px"),
   ("backgroundColor", "#007bff"),
   ("color", "white"),
   ("border", "none"),
   ("borderRadius", "6px"),
   ("cursor", "pointer"),
   ("fontSize", "14px"),
   ("fontWeight", "500"),
   ("transition", "background-color 0.2s"),
   ("alignSelf", "end")]

/-- The `refreshButton` region of `defaultStyles` (styles.js). -/
def refreshButtonStyle : StyleObj :=
  [("display", "flex"),
   ("alignItems", "center"),
   ("gap", "8px"),
   ("padding", "8px 16px"),
   ("backgroundColor", "#6c757d"),
   ("color", "white"),
   ("border", "none"),
   ("borderRadius", "6px"),
   ("cursor", "pointer"),
   ("fontSize", "14px"),
   ("transition", "background-color 0.2s")]

/-- The `searchBar` region of `defaultStyles` (styles.js). -/
def searchBarStyle : StyleObj :=
  [("display", "flex"),
   ("justifyContent", "space-between"),
   ("alignItems", "center"),
   ("marginBottom", "20px"),
   ("gap", "16px")]

/-- The `table` region of `defaultStyles` (styles.js). -/
def tableStyle : StyleObj :=
  [("width", "100%"),
   ("borderCollapse", "collapse"),
   ("backgroundColor", "white"),
   ("borderRadius", "8px"),
   ("overflow", "hidden"),
   ("boxShadow", "0 1px 3px rgba(0, 0, 0, 0.1)")]

/-- The `loading` region of `defaultStyles` (styles.js). -/
def loadingStyle : StyleObj :=
  [("textAlign", "center"),
   ("padding", "40px"),
   ("color", "#6c757d"),
   ("fontSize", "16px")]

/-- The `empty` region of `defaultStyles` (styles.js). -/
def emptyStyle : StyleObj :=
  [("textAlign", "center"),
   ("padding", "40px"),
   ("color", "#6c757d"),
   ("fontSize", "16px"),
   ("backgroundColor", "#f8f9fa"),
   ("borderRadius", "8px"),
   ("border", "1px solid #e1e5e9")]

/-- `defaultStyles` from styles.js: the named style regions with their
default style objects, in declaration order. -/
def defaultStyles : List (String × StyleObj) :=
  [("container", containerStyle),
   ("header", headerStyle),
   ("form", formStyle),
   ("formField", formFieldStyle),
   ("addButton", addButtonStyle),
   ("refreshButton", refreshButtonStyle),
   ("searchBar", searchBarStyle),
   ("table", tableStyle),
   ("loading", loadingStyle),
   ("empty", emptyStyle)]

/-- The `styles` memo: for every key of `defaultStyles`,
`merged[key] = { ...defaultStyles[key], ...customStyles[key] }`; a region
missing from `customStyles` spreads as the empty object. -/
def styles (customStyles : List (String × StyleObj)) : List (String × StyleObj) :=
  defaultStyles.map (fun p => (p.1, spreadMerge p.2 ((alistGet customStyles p.1).getD [])))

/-- Concrete input: the required Name field from the blank-submit scenario. -/
def nameField : FormField := { key := "name", label := "Name", required := true }

/-- Concrete input: the required Email field from the blank-submit scenario. -/
def emailField : FormField := { key := "email", label := "Email", required := true }

/-- Concrete input: an optional text field, used to exercise a clean submit. -/
def plainField : FormField := { key := "name", label := "Name" }

/-- Concrete input: the first sample record of the README. -/
def johnRec : Rec :=
  [("id", Value.num 1), ("name", Value.str "John Doe"),
   ("email", Value.str "john@example.com")]

/-- Concrete input: the second sample record of the README. -/
def janeRec : Rec :=
  [("id", Value.num 2), ("name", Value.str "Jane Smith"),
   ("email", Value.str "jane@example.com")]

/-- Concrete input: the Name and Email column declarations of the README. -/
def demoColumns : List Column :=
  [{ key := "name", label := "Name" }, { key := "email", label := "Email" }]

/-! ## Association list lemmas -/

theorem alistGet_cons {α : Type} (p : String × α) (rest : List (String × α)) (k : String) :
    alistGet (p :: rest) k = if p.1 == k then some p.2 else alistGet rest k := by
  cases hb : p.1 == k <;> simp [alistGet, List.find?, hb]

theorem alistGet_alistSet_self {α : Type} (m : List (String × α)) (k : String) (v : α) :
    alistGet (alistSet m k v) k = some v := by
  induction m with
  | nil => simp [alistGet, alistSet, List.find?]
  | cons p rest ih =>
    cases hb : p.1 == k with
    | true => simp [alistSet, hb, alistGet_cons]
    | false => simp [alistSet, hb, alistGet_cons, ih]

theorem alistGet_alistSet_ne {α : Type} (m : List (String × α)) (k k' : String) (v : α)
    (h : k' ≠ k) : alistGet (alistSet m k v) k' = alistGet m k' := by
  have hkk : (k == k') = false := beq_eq_false_iff_ne.mpr (Ne.symm h)
  induction m with
  | nil => simp [alistGet, alistSet, List.find?, hkk]
  | cons p rest ih =>
    cases hb : p.1 == k with
    | true =>
      have hp : p.1 = k := eq_of_beq hb
      simp [alistSet, hb, alistGet_cons, hkk, hp]
    | false =>
      cases hb' : p.1 == k' with
      | true => simp [alistSet, hb, alistGet_cons, hb']
      | false => simp [alistSet, hb, alistGet_cons, hb', ih]

theorem hasKey_eq_isSome {α : Type} (m : List (String × α)) (k : String) :
    hasKey m k = (alistGet m k).isSome := by
  induction m with
  | nil => simp [hasKey, alistGet]
  | cons p rest ih =>
    cases hb : p.1 == k with
    | true => simp [hasKey, alistGet_cons, hb]
    | false => simp [hasKey, alistGet_cons, hb, ← ih]

theorem alistGet_map_entry {α β : Type} (ds : List (String × α)) (g : String → α → β)
    (k : String) :
    alistGet (ds.map (fun p => (p.1, g p.1 p.2))) k = (alistGet ds k).map (g k) := by
  induction ds with
  | nil => simp [alistGet]
  | cons p rest ih =>
    cases hb : p.1 == k with
    | true =>
      have hp : p.1 = k := eq_of_beq hb
      simp [alistGet_cons, hb, hp]
    | false => simp [alistGet_cons, hb, ih]

/-! ## Substring lemmas: `includes` agrees with substring containment -/

theorem startsWithSeq_iff (l pat : List Char) :
    startsWithSeq l pat = true ↔ ∃ rest, l = pat ++ rest := by
  induction pat generalizing l with
  | nil => simp [startsWithSeq]
  | cons b bs ih =>
    cases l with
    | nil => simp [startsWithSeq]
    | cons a as =>
      simp only [startsWithSeq, Bool.and_eq_true, beq_iff_eq, ih, List.cons_append,
        List.cons.injEq]
      constructor
      · rintro ⟨rfl, rest, rfl⟩
        exact ⟨rest, rfl, rfl⟩
      · rintro ⟨rest, rfl, rfl⟩
        exact ⟨rfl, rest, rfl⟩

theorem containsSeq_iff (pat l : List Char) :
    containsSeq pat l = true ↔ ∃ l1 l2, l = l1 ++ pat ++ l2 := by
  induction l with
  | nil =>
    simp only [containsSeq, decide_eq_true_eq]
    constructor
    · rintro rfl
      exact ⟨[], [], rfl⟩
    · rintro ⟨l1, l2, h⟩
      rcases List.append_eq_nil.mp h.symm with ⟨h12, h2⟩
      rcases List.append_eq_nil.mp h12 with ⟨_, hpat⟩
      exact hpat
  | cons c cs ih =>
    simp only [containsSeq, Bool.or_eq_true, startsWithSeq_iff, ih]
    constructor
    · rintro (⟨rest, h⟩ | ⟨l1, l2, h⟩)
      · exact ⟨[], rest, by simpa using h⟩
      · exact ⟨c :: l1, l2, by simp [h]⟩
    · rintro ⟨l1, l2, h⟩
      cases l1 with
      | nil => exact Or.inl ⟨l2, by simpa using h⟩
      | cons x xs =>
        simp only [List.cons_append, List.cons.injEq] at h
        exact Or.inr ⟨xs, l2, h.2⟩

theorem jsIncludes_iff (s pat : String) :
    jsIncludes s pat = true ↔ StrContains s pat := by
  unfold jsIncludes StrContains
  rw [containsSeq_iff]
  constructor
  · rintro ⟨l1, l2, h⟩
    refine ⟨String.mk l1, String.mk l2, ?_⟩
    have hmk : String.mk l1 ++ pat ++ String.mk l2 = String.mk (l1 ++ pat.data ++ l2) := by
      cases pat
      rfl
    rw [hmk]
    have hs : String.mk s.data = s := rfl
    rw [← hs]
    exact congrArg String.mk h
  · rintro ⟨pre, post, h⟩
    refine ⟨pre.data, post.data, ?_⟩
    have hd : s.toList = s.data := rfl
    rw [hd, h]
    simp [String.data_append]

/-! ## The filter predicate, read at the level of propositions -/

theorem columnMatches_iff (q : String) (item : Rec) (col : Column) :
    columnMatches q item col = true ↔
      ∃ v, alistGet item col.key = some v ∧ v ≠ Value.vnull ∧
        StrContains (jsToLower (valueToString v)) (jsToLower q) := by
  unfold columnMatches
  cases hv : alistGet item col.key with
  | none => simp
  | some v =>
    cases v with
    | vnull => simp
    | str s => simp [jsIncludes_iff]
    | num n => simp [jsIncludes_iff]

/-! ## validateForm: characterizing the fold -/

theorem foldl_validateFormStep_snd (st : FormState) (fields : List FormField)
    (acc : ErrMap × Bool) :
    (List.foldl (validateFormStep st) acc fields).2 =
      (acc.2 && fields.all (fun f => !(fieldErrs st f))) := by
  induction fields generalizing acc with
  | nil => simp
  | cons f rest ih =>
    rw [List.foldl_cons, ih]
    cases hv : validateField f (alistGet st f.key) with
    | none =>
      simp [validateFormStep, fieldErrs, hv, Bool.and_assoc]
    | some msg =>
      cases hm : msg != "" with
      | true => simp [validateFormStep, fieldErrs, hv, hm, Bool.and_assoc]
      | false => simp [validateFormStep, fieldErrs, hv, hm, Bool.and_assoc]

theorem validateForm_snd (fields : List FormField) (st : FormState) :
    (validateForm fields st).2 = fields.all (fun f => !(fieldErrs st f)) := by
  rw [validateForm, foldl_validateFormStep_snd]
  simp

theorem foldl_validateFormStep_get_not_mem (st : FormState) (fields : List FormField)
    (acc : ErrMap × Bool) (k : String) (h : ∀ f ∈ fields, f.key ≠ k) :
    alistGet (List.foldl (validateFormStep st) acc fields).1 k = alistGet acc.1 k := by
  induction fields generalizing acc with
  | nil => rfl
  | cons f rest ih =>
    rw [List.foldl_cons]
    rw [ih _ (fun g hg => h g (List.mem_cons_of_mem f hg))]
    cases hv : validateField f (alistGet st f.key) with
    | none => simp [validateFormStep, hv]
    | some msg =>
      cases hm : msg != "" with
      | true =>
        simp only [validateFormStep, hv, hm, if_true]
        exact alistGet_alistSet_ne acc.1 f.key k msg (Ne.symm (h f (List.mem_cons_self f rest)))
      | false => simp [validateFormStep, hv, hm]

theorem foldl_validateFormStep_get_mem (st : FormState) (fields : List FormField)
    (acc : ErrMap × Bool) (f : FormField) (msg : String)
    (hnodup : (fields.map FormField.key).Nodup) (hmem : f ∈ fields)
    (herr : validateField f (alistGet st f.key) = some msg) (hne : msg ≠ "") :
    alistGet (List.foldl (validateFormStep st) acc fields).1 f.key = some msg := by
  induction fields generalizing acc with
  | nil => cases hmem
  | cons g rest ih =>
    rw [List.map_cons, List.nodup_cons] at hnodup
    rcases List.mem_cons.mp hmem with rfl | hmem'
    · rw [List.foldl_cons]
      have hstep : validateFormStep st acc f = (alistSet acc.1 f.key msg, false) := by
        simp [validateFormStep, herr, hne]
      rw [hstep]
      have hrest : ∀ g ∈ rest, g.key ≠ f.key := by
        intro g hg hkey
        exact hnodup.1 (hkey ▸ List.mem_map_of_mem FormField.key hg)
      rw [foldl_validateFormStep_get_not_mem st rest _ f.key hrest]
      exact alistGet_alistSet_self acc.1 f.key msg
    · rw [List.foldl_cons]
      exact ih _ hnodup.2 hmem'

theorem validateForm_of_all_none (fields : List FormField) (st : FormState)
    (h : ∀ f ∈ fields, validateField f (alistGet st f.key) = none) :
    validateForm fields st = ([], true) := by
  induction fields with
  | nil => rfl
  | cons f rest ih =>
    have hstep : validateFormStep st ([], true) f = ([], true) := by
      simp [validateFormStep, h f (List.mem_cons_self f rest)]
    have : validateForm (f :: rest) st = validateForm rest st := by
      rw [validateForm, List.foldl_cons, hstep, validateForm]
    rw [this]
    exact ih (fun g hg => h g (List.mem_cons_of_mem f hg))

/-! ## spreadMerge: lookup in a JS object spread -/

theorem alistGet_spreadMerge (a b : StyleObj) (k : String) :
    alistGet (spreadMerge a b) k =
      match alistGet b k with
      | some v => some v
      | none => alistGet a k := by
  induction a with
  | nil =>
    show alistGet b k = _
    cases alistGet b k <;> simp [alistGet]
  | cons p a' ih =>
    cases hbk : hasKey b p.1 with
    | true =>
      have hskip : spreadMerge (p :: a') b = spreadMerge a' b := by
        simp [spreadMerge, hbk]
      rw [hskip, ih]
      cases hkb : alistGet b k with
      | some v => simp
      | none =>
        have hpk : (p.1 == k) = false := by
          rw [beq_eq_false_iff_ne]
          intro heq
          rw [hasKey_eq_isSome, heq, hkb] at hbk
          simp at hbk
        simp [alistGet_cons, hpk]
    | false =>
      have hkeep : spreadMerge (p :: a') b = p :: spreadMerge a' b := by
        simp [spreadMerge, hbk]
      rw [hkeep, alistGet_cons]
      cases hpk : p.1 == k with
      | true =>
        have hpk' : p.1 = k := eq_of_beq hpk
        have hnone : alistGet b k = none := by
          rw [← hpk']
          rw [hasKey_eq_isSome] at hbk
          exact Option.not_isSome_iff_eq_none.mp (by simp [hbk])
        simp [hnone, alistGet_cons, hpk]
      | false =>
        rw [ih]
        cases alistGet b k <;> simp [alistGet_cons, hpk]

/-! ## Remaining helper lemmas -/

theorem requiredFails_iff (v : Option String) :
    requiredFails v = true ↔ v = none ∨ ∃ s, v = some s ∧ jsTrim s = "" := by
  cases v with
  | none => simp [requiredFails, jsFalsyStr]
  | some s =>
    simp only [requiredFails, jsFalsyStr, Bool.or_eq_true, beq_iff_eq]
    constructor
    · rintro (rfl | h)
      · exact Or.inr ⟨"", rfl, by decide⟩
      · exact Or.inr ⟨s, rfl, h⟩
    · rintro (h | ⟨t, ht, h⟩)
      · cases h
      · cases ht
        exact Or.inr h

theorem foldl_validateFormStep_map_default (st : FormState) (d : Option String)
    (fields : List FormField) (acc : ErrMap × Bool) :
    List.foldl (validateFormStep st) acc
        (fields.map (fun f => { f with defaultValue := d })) =
      List.foldl (validateFormStep st) acc fields := by
  induction fields generalizing acc with
  | nil => rfl
  | cons f rest ih =>
    rw [List.map_cons, List.foldl_cons, List.foldl_cons]
    have hstep : validateFormStep st acc { f with defaultValue := d } =
        validateFormStep st acc f := rfl
    rw [hstep]
    exact ih _

theorem validateForm_map_default (fields : List FormField) (st : FormState) (d : Option String) :
    validateForm (fields.map (fun f => { f with defaultValue := d })) st =
      validateForm fields st := by
  rw [validateForm, validateForm]
  exact foldl_validateFormStep_map_default st d fields ([], true)

/-! ## Claims -/

/-- C1: for every data collection, column declaration list and search query,
the filtered view is exactly the subset of records where at least one declared
column value, converted to text, contains the query as a case-insensitive
substring; a record whose value for a column is null or absent cannot match on
that column (the existential ranges over present, non-null values only) but
may still match on another column; and a query that trims to the empty string
returns the full input collection unchanged. -/
theorem filteredData_matches_query (data : List Rec) (columns : List Column) (q : String) :
    (jsTrim q = "" → filteredData data columns q = data) ∧
    (∀ item, item ∈ filteredData data columns q ↔
      item ∈ data ∧ (jsTrim q = "" ∨
        ∃ col ∈ columns, ∃ v, alistGet item col.key = some v ∧ v ≠ Value.vnull ∧
          StrContains (jsToLower (valueToString v)) (jsToLower q))) := by
  constructor
  · intro h
    simp [filteredData, h]
  · intro item
    by_cases h : jsTrim q = ""
    · simp [filteredData, h]
    · have hb : (jsTrim q == "") = false := beq_eq_false_iff_ne.mpr h
      simp [filteredData, hb, h, List.mem_filter, List.any_eq_true, columnMatches_iff]

/-- Witness for C1: the README sample collection with the query John, and a
blank query on the same collection. -/
theorem filteredData_matches_query_witness :
    (jsTrim "" = "" ∧ filteredData [johnRec, janeRec] demoColumns "" = [johnRec, janeRec]) ∧
    (johnRec ∈ filteredData [johnRec, janeRec] demoColumns "John" ↔
      johnRec ∈ [johnRec, janeRec] ∧ (jsTrim "John" = "" ∨
        ∃ col ∈ demoColumns, ∃ v, alistGet johnRec col.key = some v ∧ v ≠ Value.vnull ∧
          StrContains (jsToLower (valueToString v)) (jsToLower "John"))) :=
  ⟨⟨by decide, (filteredData_matches_query [johnRec, janeRec] demoColumns "").1 (by decide)⟩,
   (filteredData_matches_query [johnRec, janeRec] demoColumns "John").2 johnRec⟩

/-- C7: the search filter is idempotent, always yields a sublist of the input
collection (subset in the original relative order), and a query that trims to
the empty string returns exactly the input in the same order. -/
theorem filteredData_idempotent_sublist (data : List Rec) (columns : List Column) (q : String) :
    filteredData (filteredData data columns q) columns q = filteredData data columns q ∧
    List.Sublist (filteredData data columns q) data ∧
    (jsTrim q = "" → filteredData data columns q = data) := by
  by_cases h : jsTrim q = ""
  · refine ⟨?_, ?_, fun _ => ?_⟩ <;> simp [filteredData, h]
  · have hb : (jsTrim q == "") = false := beq_eq_false_iff_ne.mpr h
    refine ⟨?_, ?_, fun hq => absurd hq h⟩
    · simp [filteredData, hb, List.filter_filter]
    · simp only [filteredData, hb, if_false]
      exact List.filter_sublist data

/-- Witness for C7: the blank-query case on the README sample collection. -/
theorem filteredData_idempotent_sublist_witness :
    jsTrim "  " = "" ∧ filteredData [johnRec, janeRec] demoColumns "  " = [johnRec, janeRec] :=
  ⟨by decide,
   (filteredData_idempotent_sublist [johnRec, janeRec] demoColumns "  ").2.2 (by decide)⟩

/-- C4: a required field whose pending value is absent or blank after trimming
validates to exactly the message label is required; in every other case the
declared custom validation function (when present) is invoked with the pending
value and any non-true return is the error verbatim, a true return or a
missing function meaning no error. -/
theorem validateField_spec (field : FormField) (v : Option String) :
    ((field.required = true ∧ (v = none ∨ ∃ s, v = some s ∧ jsTrim s = "")) →
      validateField field v = some (field.label ++ " is required")) ∧
    (¬(field.required = true ∧ (v = none ∨ ∃ s, v = some s ∧ jsTrim s = "")) →
      validateField field v =
        match field.validation with
        | none => none
        | some vf =>
          match vf v with
          | ValidationResult.ok => none
          | ValidationResult.err msg => some msg) := by
  constructor
  · rintro ⟨hreq, hblank⟩
    have hrf : requiredFails v = true := (requiredFails_iff v).mpr hblank
    simp [validateField, hreq, hrf]
  · intro hneg
    have hcond : (field.required && requiredFails v) = false := by
      cases hreq : field.required with
      | false => simp
      | true =>
        cases hrf : requiredFails v with
        | true => exact absurd ⟨hreq, (requiredFails_iff v).mp hrf⟩ hneg
        | false => simp
    cases hval : field.validation with
    | none => simp [validateField, hcond, hval]
    | some vf => simp [validateField, hcond, hval]

/-- Witness for C4: both branches at concrete inputs, an absent value on a
required field and a non-blank value on the same field with no custom
validation function. -/
theorem validateField_spec_witness :
    (nameField.required = true ∧
      ((none : Option String) = none ∨ ∃ s, (none : Option String) = some s ∧ jsTrim s = "")) ∧
    validateField nameField none = some "Name is required" ∧
    (¬(nameField.required = true ∧
      ((some "John" : Option String) = none ∨
        ∃ s, (some "John" : Option String) = some s ∧ jsTrim s = ""))) ∧
    validateField nameField (some "John") = none := by
  have h1 : nameField.required = true ∧
      ((none : Option String) = none ∨ ∃ s, (none : Option String) = some s ∧ jsTrim s = "") :=
    ⟨rfl, Or.inl rfl⟩
  have h2 : ¬(nameField.required = true ∧
      ((some "John" : Option String) = none ∨
        ∃ s, (some "John" : Option String) = some s ∧ jsTrim s = "")) := by
    rintro ⟨-, h | ⟨s, hs, htrim⟩⟩
    · cases h
    · cases hs
      revert htrim
      decide
  refine ⟨h1, ?_, h2, ?_⟩
  · exact (validateField_spec nameField none).1 h1
  · exact (validateField_spec nameField (some "John")).2 h2

/-- C2: when no declared field produces a validation error and the supplied
add callback returns normally, a submit attempt invokes the callback exactly
once with the aggregated pending-value mapping, and afterwards the pending
form state and the error state are both reset to the empty mapping (the
throwing-callback case is the subject of the failure-boundary claim). -/
theorem handleAdd_success_resets (fields : List FormField) (st : FormState)
    (onAddF : FormState → CbOutcome)
    (hok : ∀ f ∈ fields, validateField f (alistGet st f.key) = none)
    (hret : onAddF st = CbOutcome.ok) :
    handleAdd fields st (some onAddF) =
      { calls := [st], formState := [], formErrors := [], logged := 0, propagated := none } := by
  have hv : validateForm fields st = ([], true) := validateForm_of_all_none fields st hok
  simp [handleAdd, hv, hret]

/-- Witness for C2: a single optional field with a pending value and a normal
returning callback. -/
theorem handleAdd_success_resets_witness :
    (∀ f ∈ [plainField], validateField f (alistGet [("name", "John")] f.key) = none) ∧
    handleAdd [plainField] [("name", "John")] (some (fun _ => CbOutcome.ok)) =
      { calls := [[("name", "John")]], formState := [], formErrors := [],
        logged := 0, propagated := none } := by
  have hok : ∀ f ∈ [plainField], validateField f (alistGet [("name", "John")] f.key) = none := by
    intro f hf
    rw [List.mem_singleton] at hf
    subst hf
    decide
  exact ⟨hok, handleAdd_success_resets [plainField] [("name", "John")]
    (fun _ => CbOutcome.ok) hok rfl⟩

/-- C3: when at least one declared field produces a (truthy) validation error
on a submit attempt, the submission is aborted: the onAdd callback is never
invoked and, provided the declared field keys are distinct, every erring field
has its error message recorded in the resulting error state. -/
theorem handleAdd_aborts_on_error (fields : List FormField) (st : FormState)
    (onAdd : Option (FormState → CbOutcome))
    (hnodup : (fields.map FormField.key).Nodup)
    (f0 : FormField) (msg0 : String) (hmem : f0 ∈ fields)
    (herr : validateField f0 (alistGet st f0.key) = some msg0) (hne : msg0 ≠ "") :
    (handleAdd fields st onAdd).calls = [] ∧
    (∀ f ∈ fields, ∀ msg, validateField f (alistGet st f.key) = some msg → msg ≠ "" →
      alistGet (handleAdd fields st onAdd).formErrors f.key = some msg) := by
  have hv : (validateForm fields st).2 = false := by
    rw [validateForm_snd]
    refine List.all_eq_false.mpr ⟨f0, hmem, ?_⟩
    simp [fieldErrs, herr, hne]
  have habort : handleAdd fields st onAdd =
      { calls := [], formState := st, formErrors := (validateForm fields st).1,
        logged := 0, propagated := none } := by
    simp [handleAdd, hv]
  rw [habort]
  refine ⟨rfl, ?_⟩
  intro f hf msg hmsg hmsgne
  exact foldl_validateFormStep_get_mem st fields ([], true) f msg hnodup hf hmsg hmsgne

/-- Witness for C3: a single blank required field with a supplied callback. -/
theorem handleAdd_aborts_on_error_witness :
    (handleAdd [nameField] [] (some (fun _ => CbOutcome.ok))).calls = [] ∧
    alistGet (handleAdd [nameField] [] (some (fun _ => CbOutcome.ok))).formErrors "name" =
      some "Name is required" := by
  have h := handleAdd_aborts_on_error [nameField] [] (some (fun _ => CbOutcome.ok))
    (by simp) nameField "Name is required" (List.mem_singleton.mpr rfl) (by decide) (by decide)
  refine ⟨h.1, ?_⟩
  have h2 := h.2 nameField (List.mem_singleton.mpr rfl) "Name is required" (by decide) (by decide)
  exact h2

/-- C9: the concrete blank-submit scenario: two required fields, Name and
Email (carrying the labels the FormField interface requires), submitted with
both pending values absent, yield exactly the error mapping with
Name is required and Email is required, and onAdd is not called whatever
callback is supplied. -/
theorem blank_submit_scenario :
    validateForm [nameField, emailField] [] =
      ([("name", "Name is required"), ("email", "Email is required")], false) ∧
    (∀ onAdd : Option (FormState → CbOutcome),
      (handleAdd [nameField, emailField] [] onAdd).calls = []) :=
  ⟨by decide, fun _ => rfl⟩

/-- C5: with the confirmDelete flag set and the interactive confirmation
declined, the delete callback is not invoked; with the confirmation accepted,
or with the flag unset (whatever the confirmation would answer), the callback
is invoked exactly once with the record id. -/
theorem handleDelete_confirmation (idv : Value) (f : Value → CbOutcome) :
    (handleDelete true false idv (some f)).calls = [] ∧
    (handleDelete true true idv (some f)).calls = [idv] ∧
    (∀ winC, (handleDelete false winC idv (some f)).calls = [idv]) := by
  refine ⟨rfl, ?_, ?_⟩
  · cases hf : f idv <;> simp [handleDelete, hf]
  · intro winC
    cases hf : f idv <;> simp [handleDelete, hf]

/-- C6: a supplied add, edit or delete callback that throws when invoked is
invoked exactly once (no retry); the handler catches the exception at its
local try/catch boundary, logs exactly one error, and never propagates the
exception out of the handler. -/
theorem callback_exceptions_swallowed (fields : List FormField) (st : FormState)
    (onAddF : FormState → CbOutcome) (item : Rec) (onEditF : Rec → CbOutcome)
    (idv : Value) (confirmD winC : Bool) (onDelF : Value → CbOutcome)
    (msgA msgE msgD : String)
    (hvalid : ∀ f ∈ fields, validateField f (alistGet st f.key) = none)
    (hA : onAddF st = CbOutcome.throws msgA)
    (hE : onEditF item = CbOutcome.throws msgE)
    (hD : onDelF idv = CbOutcome.throws msgD)
    (hgo : confirmD = false ∨ winC = true) :
    ((handleAdd fields st (some onAddF)).calls = [st] ∧
     (handleAdd fields st (some onAddF)).logged = 1 ∧
     (handleAdd fields st (some onAddF)).propagated = none) ∧
    ((handleEdit item (some onEditF)).calls = [item] ∧
     (handleEdit item (some onEditF)).logged = 1 ∧
     (handleEdit item (some onEditF)).propagated = none) ∧
    ((handleDelete confirmD winC idv (some onDelF)).calls = [idv] ∧
     (handleDelete confirmD winC idv (some onDelF)).logged = 1 ∧
     (handleDelete confirmD winC idv (some onDelF)).propagated = none) := by
  have hv : validateForm fields st = ([], true) := validateForm_of_all_none fields st hvalid
  have h1 : handleAdd fields st (some onAddF) =
      { calls := [st], formState := st, formErrors := [], logged := 1, propagated := none } := by
    simp [handleAdd, hv, hA]
  have h2 : handleEdit item (some onEditF) =
      { calls := [item], logged := 1, propagated := none } := by
    simp [handleEdit, hE]
  have h3 : handleDelete confirmD winC idv (some onDelF) =
      { calls := [idv], logged := 1, propagated := none } := by
    rcases hgo with rfl | rfl
    · simp [handleDelete, hD]
    · cases confirmD <;> simp [handleDelete, hD]
  rw [h1, h2, h3]
  exact ⟨⟨rfl, rfl, rfl⟩, ⟨rfl, rfl, rfl⟩, ⟨rfl, rfl, rfl⟩⟩

/-- Witness for C6: throwing callbacks at concrete inputs (an empty field
list, the John record, the id 1, confirmation disabled). -/
theorem callback_exceptions_swallowed_witness :
    ((handleAdd [] [] (some (fun _ => CbOutcome.throws "boom"))).calls = [([] : FormState)] ∧
     (handleAdd [] [] (some (fun _ => CbOutcome.throws "boom"))).logged = 1 ∧
     (handleAdd [] [] (some (fun _ => CbOutcome.throws "boom"))).propagated = none) ∧
    ((handleEdit johnRec (some (fun _ => CbOutcome.throws "boom"))).calls = [johnRec] ∧
     (handleEdit johnRec (some (fun _ => CbOutcome.throws "boom"))).logged = 1 ∧
     (handleEdit johnRec (some (fun _ => CbOutcome.throws "boom"))).propagated = none) ∧
    ((handleDelete false false (Value.num 1) (some (fun _ => CbOutcome.throws "boom"))).calls =
        [Value.num 1] ∧
     (handleDelete false false (Value.num 1) (some (fun _ => CbOutcome.throws "boom"))).logged = 1 ∧
     (handleDelete false false (Value.num 1)
        (some (fun _ => CbOutcome.throws "boom"))).propagated = none) :=
  callback_exceptions_swallowed [] [] (fun _ => CbOutcome.throws "boom") johnRec
    (fun _ => CbOutcome.throws "boom") (Value.num 1) false false
    (fun _ => CbOutcome.throws "boom") "boom" "boom" "boom"
    (fun f hf => absurd hf (List.not_mem_nil f)) rfl rfl rfl (Or.inl rfl)

/-- C8: for each named style region (each key of `defaultStyles`), the
resolved style is the default style object for that region shallow-merged
with the caller-supplied override for that region: key-by-key, an override
value wins and the default fills in the rest.  The override object `cs` is an
arbitrary mapping: no shape validation is performed on it. -/
theorem styles_shallow_merge (cs : List (String × StyleObj)) (region : String)
    (defObj : StyleObj) (h : alistGet defaultStyles region = some defObj) (k : String) :
    ∃ m, alistGet (styles cs) region = some m ∧
      alistGet m k =
        (match alistGet ((alistGet cs region).getD []) k with
         | some v => some v
         | none => alistGet defObj k) := by
  refine ⟨spreadMerge defObj ((alistGet cs region).getD []), ?_, ?_⟩
  · have hmap := alistGet_map_entry defaultStyles
      (fun key obj => spreadMerge obj ((alistGet cs key).getD [])) region
    rw [styles, hmap, h]
    rfl
  · exact alistGet_spreadMerge defObj ((alistGet cs region).getD []) k

/-- Witness for C8: the container region with a padding override, looked up
at the overridden key. -/
theorem styles_shallow_merge_witness :
    alistGet defaultStyles "container" = some containerStyle ∧
    ∃ m, alistGet (styles [("container", [("padding", "0px")])]) "container" = some m ∧
      alistGet m "padding" =
        (match alistGet
            ((alistGet [("container", [("padding", "0px")])] "container").getD []) "padding" with
         | some v => some v
         | none => alistGet containerStyle "padding") :=
  ⟨by decide,
   styles_shallow_merge [("container", [("padding", "0px")])] "container" containerStyle
     (by decide) "padding"⟩

/-- C10: the pending form state is created as the empty mapping; an input on
the initial state renders the empty string whatever the field declares; and
the declared defaultValue attribute is never read: changing it changes
neither the rendered input value, nor the per-field validation result, nor
anything `handleAdd` does (in particular not the mapping passed to onAdd). -/
theorem defaultValue_unused :
    initialFormState = [] ∧
    (∀ f : FormField, renderedInputValue initialFormState f = "") ∧
    (∀ st f d, renderedInputValue st { f with defaultValue := d } = renderedInputValue st f) ∧
    (∀ f d v, validateField { f with defaultValue := d } v = validateField f v) ∧
    (∀ fields st onAdd d,
      handleAdd (fields.map (fun f => { f with defaultValue := d })) st onAdd =
        handleAdd fields st onAdd) := by
  refine ⟨rfl, fun f => rfl, fun st f d => rfl, fun f d v => rfl, ?_⟩
  intro fields st onAdd d
  unfold handleAdd
  rw [validateForm_map_default]
